import Mathlib

/-!
# Mandelbrot distance-estimation renderer (src/mandelbrot.cpp)

Shallow embedding of the fractal evaluation and frame composition code:
`keyHandler`, `DemMandelbrot`, `MappingFunction` and `RenderPixels`, with the
two process-wide globals `settings` and `resourcesTable` passed explicitly.

Arithmetic on `float` values is taken as exact arithmetic on rationals.  The
few float results that leave the rationals (infinities, NaN) are carried by
`FloatVal`.
-/

namespace Mandelbrot

/-! ## Data model -/

/-- The struct `settings_t` (lines 12-21). -/
structure settings_t where
  x_scale : ℚ
  y_scale : ℚ
  x_shift : ℚ
  y_shift : ℚ
  iterations : Int
  depth_threshold : Int

/-- Field initialisers of `settings_t`: the startup value of the global `settings`. -/
def settings_default : settings_t :=
  { x_scale := 0.015625
    y_scale := 0.015625
    x_shift := 0.396092
    y_shift := -0.370313
    iterations := 256
    depth_threshold := 8 }

/-- The struct `resourcesTable_t` (lines 23-34) without the SDL handles.  The locked
texture `cg_TexturePixels` is a grid of pixels addressed by row and by position inside
the row; a pixel holds `none` when the value stored there is one the C++ standard
leaves undefined. -/
structure resourcesTable_t where
  s_quit : Bool
  s_invert : Bool
  cg_TexturePixels : Nat → Nat → Option Nat
  r_CustomWidth : Nat
  r_CustomHeight : Nat
  cg_Field : Nat

/-- Field initialisers of `resourcesTable_t`: the startup value of the global
`resourcesTable`; no texture is locked yet. -/
def resourcesTable_default : resourcesTable_t :=
  { s_quit := false
    s_invert := false
    cg_TexturePixels := fun _ _ => none
    r_CustomWidth := 640
    r_CustomHeight := 480
    cg_Field := 1 }

/-- The two globals `settings` and `resourcesTable`. -/
structure World where
  settings : settings_t
  resourcesTable : resourcesTable_t

/-- The globals at program start. -/
def World_default : World :=
  { settings := settings_default, resourcesTable := resourcesTable_default }

/-! ## Key codes of SDL2 (`SDL_keycode.h`) -/

/-- Key code of the down arrow. -/
def SDLK_DOWN : Int := 1073741905

/-- Key code of the up arrow. -/
def SDLK_UP : Int := 1073741906

/-- Key code of the right arrow. -/
def SDLK_RIGHT : Int := 1073741903

/-- Key code of the left arrow. -/
def SDLK_LEFT : Int := 1073741904

/-- Key code of the period. -/
def SDLK_PERIOD : Int := 46

/-- Key code of the comma. -/
def SDLK_COMMA : Int := 44

/-- Key code of the right bracket. -/
def SDLK_RIGHTBRACKET : Int := 93

/-- Key code of the left bracket. -/
def SDLK_LEFTBRACKET : Int := 91

/-- Key code of Home. -/
def SDLK_HOME : Int := 1073741898

/-- Key code of End. -/
def SDLK_END : Int := 1073741901

/-- Key code of Escape. -/
def SDLK_ESCAPE : Int := 27

/-- Key code of the space bar. -/
def SDLK_SPACE : Int := 32

/-! ## keyHandler (lines 50-113) -/

/-- The `switch` of `keyHandler` on `key_event.keysym.sym`, acting on `settings`. -/
def keySettings (sym : Int) (s : settings_t) : settings_t :=
  if sym = SDLK_DOWN then { s with y_shift := s.y_shift + 0.1 * s.y_scale }
  else if sym = SDLK_UP then { s with y_shift := s.y_shift - 0.1 * s.y_scale }
  else if sym = SDLK_RIGHT then { s with x_shift := s.x_shift + 0.1 * s.x_scale }
  else if sym = SDLK_LEFT then { s with x_shift := s.x_shift - 0.1 * s.x_scale }
  else if sym = SDLK_PERIOD then
    { s with x_scale := s.x_scale * 0.5, y_scale := s.y_scale * 0.5 }
  else if sym = SDLK_COMMA then
    { s with x_scale := s.x_scale * 2.0, y_scale := s.y_scale * 2.0 }
  else if sym = SDLK_RIGHTBRACKET then
    if s.iterations < 1024 then { s with iterations := s.iterations * 2 } else s
  else if sym = SDLK_LEFTBRACKET then
    if s.iterations > 1 then { s with iterations := Int.tdiv s.iterations 2 } else s
  else if sym = SDLK_HOME then
    if s.depth_threshold < 1024 then { s with depth_threshold := s.depth_threshold * 2 } else s
  else if sym = SDLK_END then
    if s.depth_threshold > 1 then
      { s with depth_threshold := Int.tdiv s.depth_threshold 2 }
    else s
  else s

/-- The `switch` of `keyHandler`, acting on the flags of `resourcesTable`. -/
def keyFlags (sym : Int) (r : resourcesTable_t) : resourcesTable_t :=
  if sym = SDLK_ESCAPE then { r with s_quit := true }
  else if sym = SDLK_SPACE then { r with s_invert := true }
  else r

/-- Function `keyHandler`: the switch, then `resourcesTable.cg_Field = 1`. -/
def keyHandler (sym : Int) (w : World) : World :=
  { settings := keySettings sym w.settings
    resourcesTable := { keyFlags sym w.resourcesTable with cg_Field := 1 } }

/-- State after a sequence of key events, oldest first. -/
def keyEvents (syms : List Int) (w : World) : World :=
  syms.foldl (fun acc sym => keyHandler sym acc) w

/-! ## DemMandelbrot (lines 192-215) -/

/-- The type `Complex` (`std::complex<float>`), in exact arithmetic. -/
structure Cplx where
  re : ℚ
  im : ℚ
deriving DecidableEq

namespace Cplx

/-- Complex addition. -/
def add (a b : Cplx) : Cplx := ⟨a.re + b.re, a.im + b.im⟩

/-- Complex multiplication. -/
def mul (a b : Cplx) : Cplx := ⟨a.re * b.re - a.im * b.im, a.re * b.im + a.im * b.re⟩

/-- Product of a real scalar and a complex number. -/
def smul (c : ℚ) (a : Cplx) : Cplx := ⟨c * a.re, c * a.im⟩

/-- The squared magnitude computed by `std::norm`. -/
def norm (a : Cplx) : ℚ := a.re * a.re + a.im * a.im

instance : Add Cplx := ⟨add⟩
instance : Mul Cplx := ⟨mul⟩

end Cplx

/-- The local constant `one` of `DemMandelbrot` (line 196): `Complex one (1.0f, 1.0f)`. -/
def one : Cplx := ⟨1, 1⟩

/-- Local variables of `DemMandelbrot` during its loop, together with `updates`, a
counter of executed loop bodies that the source does not have. -/
structure DemState where
  z : Cplx
  dz : Cplx
  nz : ℚ
  i : Nat
  updates : Nat

/-- Locals at loop entry: `z (0.0f)`, `dz (1.0f, 0.0f)`, `nz = 0.0f`, `i = 0`. -/
def DemInit : DemState :=
  { z := ⟨0, 0⟩, dz := ⟨1, 0⟩, nz := 0, i := 0, updates := 0 }

/-- Lines 204-211: the loop body past the threshold test, its closing `i++` included. -/
def DemBody (point : Cplx) (st : DemState) : DemState :=
  let dz := Cplx.smul 2 (st.z * st.dz) + one
  let z := (st.z * st.z) + point
  { z := z, dz := dz, nz := Cplx.norm z, i := st.i + 1, updates := st.updates + 1 }

/-- One executed trip of the `for` loop: the body, then the `i++` of the `for` statement
(line 200). -/
def DemTrip (point : Cplx) (st : DemState) : DemState :=
  let b := DemBody point st
  { b with i := b.i + 1 }

/-- The `for` loop of lines 200-212, from the locals `st` until it is left: the loop
condition, the threshold test with its `break`, then one trip.  The counter `i` is a C
`int` that never exceeds `iterations + 1`, so it is a natural number here. -/
def DemLoop (s : settings_t) (point : Cplx) (st : DemState) : DemState :=
  if (st.i : Int) < s.iterations then
    if st.nz > (s.depth_threshold : ℚ) then st
    else DemLoop s point (DemTrip point st)
  else st
termination_by (s.iterations - (st.i : Int)).toNat
decreasing_by
  simp only [DemTrip, DemBody]
  push_cast
  omega

/-- Results of `float` expressions: a rational, an infinity, or NaN.  Zero is unsigned. -/
inductive FloatVal where
  | fin (q : ℚ)
  | posInf
  | negInf
  | nan
deriving DecidableEq

namespace FloatVal

/-- Product of two float values. -/
def mul : FloatVal → FloatVal → FloatVal
  | nan, _ => nan
  | _, nan => nan
  | fin a, fin b => fin (a * b)
  | fin a, posInf => if 0 < a then posInf else if a < 0 then negInf else nan
  | fin a, negInf => if 0 < a then negInf else if a < 0 then posInf else nan
  | posInf, fin b => if 0 < b then posInf else if b < 0 then negInf else nan
  | negInf, fin b => if 0 < b then negInf else if b < 0 then posInf else nan
  | posInf, posInf => posInf
  | posInf, negInf => negInf
  | negInf, posInf => negInf
  | negInf, negInf => posInf

/-- Quotient of two float values. -/
def div : FloatVal → FloatVal → FloatVal
  | nan, _ => nan
  | _, nan => nan
  | fin a, fin b =>
    if b = 0 then (if 0 < a then posInf else if a < 0 then negInf else nan) else fin (a / b)
  | fin _, posInf => fin 0
  | fin _, negInf => fin 0
  | posInf, fin b => if b < 0 then negInf else posInf
  | negInf, fin b => if b < 0 then posInf else negInf
  | posInf, posInf => nan
  | posInf, negInf => nan
  | negInf, posInf => nan
  | negInf, negInf => nan

/-- The comparison `a < b` of two float values; false whenever one is NaN. -/
def lt : FloatVal → FloatVal → Bool
  | fin a, fin b => decide (a < b)
  | fin _, posInf => true
  | negInf, fin _ => true
  | negInf, posInf => true
  | _, _ => false

/-- Function template `std::min`: `(b < a) ? b : a`. -/
def std_min (a b : FloatVal) : FloatVal := if lt b a then b else a

/-- Function template `std::max`: `(a < b) ? b : a`. -/
def std_max (a b : FloatVal) : FloatVal := if lt a b then b else a

/-- The conversion `(uint)`: truncation toward zero of a value whose truncation fits 32
bits, undefined (`none`) otherwise. -/
def toUint : FloatVal → Option Nat
  | fin q =>
    if -1 < q ∧ q < 2 ^ 32 then
      some (Int.toNat (if 0 ≤ q then Rat.floor q else -Rat.floor (-q)))
    else none
  | _ => none

end FloatVal

/-- The libm functions `sqrtf` and `logf`, which the rationals cannot express. -/
structure FloatOps where
  sqrtf : FloatVal → FloatVal
  logf : FloatVal → FloatVal

/-- The return expression of line 214, on the locals at loop exit:
`0.5f * sqrtf((nz) / std::norm(dz)) * logf(nz)`. -/
def DemReturn (fl : FloatOps) (st : DemState) : FloatVal :=
  FloatVal.mul
    (FloatVal.mul (FloatVal.fin 0.5)
      (fl.sqrtf (FloatVal.div (FloatVal.fin st.nz) (FloatVal.fin (Cplx.norm st.dz)))))
    (fl.logf (FloatVal.fin st.nz))

/-- Function `DemMandelbrot`: the loop, then the return expression. -/
def DemMandelbrot (fl : FloatOps) (s : settings_t) (point : Cplx) : FloatVal :=
  DemReturn fl (DemLoop s point DemInit)

/-- A table of `sqrtf` and `logf` at the arguments where the result is a rational or an
infinity that needs no rounding; NaN stands in elsewhere.  Used where a concrete
`FloatOps` is evaluated. -/
def FloatOps_table : FloatOps :=
  { sqrtf := fun v =>
      if v = FloatVal.fin 0 then FloatVal.fin 0
      else if v = FloatVal.fin 1 then FloatVal.fin 1
      else if v = FloatVal.posInf then FloatVal.posInf
      else FloatVal.nan
    logf := fun v =>
      if v = FloatVal.fin 0 then FloatVal.negInf
      else if v = FloatVal.fin 1 then FloatVal.fin 0
      else if v = FloatVal.posInf then FloatVal.posInf
      else FloatVal.nan }

/-! ## MappingFunction (lines 217-227) -/

/-- Function `MappingFunction`. -/
def MappingFunction (s : settings_t) (x y max_x max_y : Nat) : Cplx :=
  let x_0 : ℚ := (-2.0 * s.x_scale) + s.x_shift
  let x_1 : ℚ := (2.0 * s.x_scale) + s.x_shift
  let y_0 : ℚ := (-2.0 * s.y_scale) + s.y_shift
  let y_1 : ℚ := (2.0 * s.y_scale) + s.y_shift
  ⟨(x : ℚ) / (max_x : ℚ) * (x_1 - x_0) + x_0, (y : ℚ) / (max_y : ℚ) * (y_1 - y_0) + y_0⟩

/-! ## RenderPixels (lines 230-272) -/

/-- The constant `p` of line 249: `powf( 2.0f, 20.0)`. -/
def p : ℚ := 2 ^ 20

/-- Lines 262-264: the scaled distance, clamped by `std::min` and `std::max`. -/
def clampColor (distance : FloatVal) : FloatVal :=
  let color := FloatVal.mul distance (FloatVal.fin p)
  let color := FloatVal.std_min color (FloatVal.fin 255.0)
  FloatVal.std_max color (FloatVal.fin 0.0)

/-- Line 266: `uint icolor = (uint) ( color )`. -/
def icolorOf (distance : FloatVal) : Option Nat :=
  FloatVal.toUint (clampColor distance)

/-- Line 268: the 32-bit value stored in the pixel. -/
def packPixel (icolor : Nat) : Nat :=
  (((0xff <<< 24) % 2 ^ 32) ||| ((icolor <<< 16) % 2 ^ 32) ||| ((icolor <<< 8) % 2 ^ 32)
    ||| icolor) % 2 ^ 32

/-- One store `*pixel = ...`: the row, the position of `pixel` inside the row (counted
in pixels) and the value stored. -/
structure Write where
  row : Nat
  pixel : Nat
  value : Option Nat

/-- Lines 259-268: the value computed for the pixel at column `col` of row `row`. -/
def pixelValue (fl : FloatOps) (s : settings_t) (col row dim_x dim_y : Nat) : Option Nat :=
  let target_point := MappingFunction s col row dim_x dim_y
  let distance := DemMandelbrot fl s target_point
  (icolorOf distance).map packPixel

/-- The inner loop of line 258, from the current `col` and `pixel`: the stores it
performs, in order.  The loop counters are C `int`s that stay below the texture
dimensions plus two, so they are natural numbers here. -/
def colLoop (fl : FloatOps) (s : settings_t) (dim_x dim_y row col pixel : Nat) : List Write :=
  if col < dim_x then
    { row := row, pixel := pixel, value := pixelValue fl s col row dim_x dim_y } ::
      colLoop fl s dim_x dim_y row (col + 2) (pixel + 2)
  else []
termination_by dim_x - col

/-- The row loop of line 252, from the current `row`; `pixel` starts each row at
`start_at`.  Rows go in increasing order (any schedule of the parallel loop performs
the same stores). -/
def rowLoop (fl : FloatOps) (s : settings_t) (dim_x dim_y start_at row : Nat) : List Write :=
  if row < dim_y then
    colLoop fl s dim_x dim_y row start_at start_at ++ rowLoop fl s dim_x dim_y start_at (row + 1)
  else []
termination_by dim_y - row

/-- Effect of one store on the texture. -/
def store (buf : Nat → Nat → Option Nat) (wr : Write) : Nat → Nat → Option Nat :=
  fun r c => if r = wr.row ∧ c = wr.pixel then wr.value else buf r c

/-- Function `RenderPixels`: the new globals and the stores performed, in order. -/
def RenderPixels (fl : FloatOps) (w : World) : World × List Write :=
  let dim_x := w.resourcesTable.r_CustomWidth
  let dim_y := w.resourcesTable.r_CustomHeight
  let render (start_at : Nat) (field : Nat) : World × List Write :=
    let ws := rowLoop fl w.settings dim_x dim_y start_at 0
    ({ w with resourcesTable :=
        { w.resourcesTable with
            cg_Field := field
            cg_TexturePixels := ws.foldl store w.resourcesTable.cg_TexturePixels } }, ws)
  if w.resourcesTable.cg_Field = 1 then render 0 2
  else if w.resourcesTable.cg_Field = 2 then render 1 0
  else (w, [])

/-- The globals after a call of `RenderPixels`. -/
def RenderState (fl : FloatOps) (w : World) : World := (RenderPixels fl w).1

/-- The stores performed by a call of `RenderPixels`. -/
def RenderWrites (fl : FloatOps) (w : World) : List Write := (RenderPixels fl w).2

/-- Positions stored to by a list of stores. -/
def positions (ws : List Write) : List (Nat × Nat) :=
  ws.map (fun wr => (wr.row, wr.pixel))

/-! ## Notions used by the properties -/

/-- Number of stores, among `ws`, to the pixel at position `col` of row `row`. -/
def writesAt (ws : List Write) (row col : Nat) : Nat :=
  ws.countP (fun wr => decide (wr.row = row ∧ wr.pixel = col))

/-- The orbit `z_0 = 0`, `z_{n+1} = z_n^2 + point`. -/
def orbit (point : Cplx) : Nat → Cplx
  | 0 => ⟨0, 0⟩
  | n + 1 => orbit point n * orbit point n + point

/-- The orbit never exceeds `depth_threshold`. -/
def NeverEscapes (s : settings_t) (point : Cplx) : Prop :=
  ∀ n, ¬ Cplx.norm (orbit point n) > (s.depth_threshold : ℚ)

/-- The values that doubling and halving inside `[1, 1024]` can produce. -/
def ParamOK (n : Int) : Prop :=
  n = 1 ∨ n = 2 ∨ n = 4 ∨ n = 8 ∨ n = 16 ∨ n = 32 ∨ n = 64 ∨ n = 128 ∨ n = 256 ∨
    n = 512 ∨ n = 1024

/-! ## Properties of keyHandler -/

theorem ParamOK_bounds {n : Int} (h : ParamOK n) : 1 ≤ n ∧ n ≤ 1024 := by
  unfold ParamOK at h
  omega

theorem ParamOK_double {n : Int} (h : ParamOK n) (hlt : n < 1024) : ParamOK (n * 2) := by
  unfold ParamOK at h ⊢
  omega

theorem ParamOK_halve {n : Int} (h : ParamOK n) (hgt : n > 1) : ParamOK (Int.tdiv n 2) := by
  unfold ParamOK at h
  rcases h with h | h | h | h | h | h | h | h | h | h | h <;> subst h <;>
    first
      | (exfalso; omega)
      | (unfold ParamOK; decide)

theorem keySettings_down (s : settings_t) :
    keySettings SDLK_DOWN s = { s with y_shift := s.y_shift + 0.1 * s.y_scale } := rfl

theorem keySettings_up (s : settings_t) :
    keySettings SDLK_UP s = { s with y_shift := s.y_shift - 0.1 * s.y_scale } := rfl

theorem keySettings_right (s : settings_t) :
    keySettings SDLK_RIGHT s = { s with x_shift := s.x_shift + 0.1 * s.x_scale } := rfl

theorem keySettings_left (s : settings_t) :
    keySettings SDLK_LEFT s = { s with x_shift := s.x_shift - 0.1 * s.x_scale } := rfl

theorem keySettings_period (s : settings_t) :
    keySettings SDLK_PERIOD s =
      { s with x_scale := s.x_scale * 0.5, y_scale := s.y_scale * 0.5 } := rfl

theorem keySettings_comma (s : settings_t) :
    keySettings SDLK_COMMA s =
      { s with x_scale := s.x_scale * 2.0, y_scale := s.y_scale * 2.0 } := rfl

theorem keySettings_rightbracket (s : settings_t) :
    keySettings SDLK_RIGHTBRACKET s =
      if s.iterations < 1024 then { s with iterations := s.iterations * 2 } else s := rfl

theorem keySettings_leftbracket (s : settings_t) :
    keySettings SDLK_LEFTBRACKET s =
      if s.iterations > 1 then { s with iterations := Int.tdiv s.iterations 2 } else s := rfl

theorem keySettings_home (s : settings_t) :
    keySettings SDLK_HOME s =
      if s.depth_threshold < 1024 then { s with depth_threshold := s.depth_threshold * 2 }
      else s := rfl

theorem keySettings_end (s : settings_t) :
    keySettings SDLK_END s =
      if s.depth_threshold > 1 then
        { s with depth_threshold := Int.tdiv s.depth_threshold 2 }
      else s := rfl

theorem keySettings_unbound (sym : Int) (s : settings_t)
    (h1 : sym ≠ SDLK_DOWN) (h2 : sym ≠ SDLK_UP) (h3 : sym ≠ SDLK_RIGHT)
    (h4 : sym ≠ SDLK_LEFT) (h5 : sym ≠ SDLK_PERIOD) (h6 : sym ≠ SDLK_COMMA)
    (h7 : sym ≠ SDLK_RIGHTBRACKET) (h8 : sym ≠ SDLK_LEFTBRACKET) (h9 : sym ≠ SDLK_HOME)
    (h10 : sym ≠ SDLK_END) :
    keySettings sym s = s := by
  unfold keySettings
  rw [if_neg h1, if_neg h2, if_neg h3, if_neg h4, if_neg h5, if_neg h6, if_neg h7,
    if_neg h8, if_neg h9, if_neg h10]

/-- Case analysis on the key symbol: a property of the settings after any key follows
from the ten bound keys and the unbound case. -/
theorem keySettings_cases (P : settings_t → Prop) (s : settings_t)
    (h_down : P (keySettings SDLK_DOWN s)) (h_up : P (keySettings SDLK_UP s))
    (h_right : P (keySettings SDLK_RIGHT s)) (h_left : P (keySettings SDLK_LEFT s))
    (h_period : P (keySettings SDLK_PERIOD s)) (h_comma : P (keySettings SDLK_COMMA s))
    (h_rb : P (keySettings SDLK_RIGHTBRACKET s)) (h_lb : P (keySettings SDLK_LEFTBRACKET s))
    (h_home : P (keySettings SDLK_HOME s)) (h_end : P (keySettings SDLK_END s))
    (h_other : P s) (sym : Int) : P (keySettings sym s) := by
  by_cases h1 : sym = SDLK_DOWN
  · rw [h1]; exact h_down
  by_cases h2 : sym = SDLK_UP
  · rw [h2]; exact h_up
  by_cases h3 : sym = SDLK_RIGHT
  · rw [h3]; exact h_right
  by_cases h4 : sym = SDLK_LEFT
  · rw [h4]; exact h_left
  by_cases h5 : sym = SDLK_PERIOD
  · rw [h5]; exact h_period
  by_cases h6 : sym = SDLK_COMMA
  · rw [h6]; exact h_comma
  by_cases h7 : sym = SDLK_RIGHTBRACKET
  · rw [h7]; exact h_rb
  by_cases h8 : sym = SDLK_LEFTBRACKET
  · rw [h8]; exact h_lb
  by_cases h9 : sym = SDLK_HOME
  · rw [h9]; exact h_home
  by_cases h10 : sym = SDLK_END
  · rw [h10]; exact h_end
  rw [keySettings_unbound sym s h1 h2 h3 h4 h5 h6 h7 h8 h9 h10]
  exact h_other

theorem keySettings_ParamOK (sym : Int) (s : settings_t)
    (hi : ParamOK s.iterations) (hd : ParamOK s.depth_threshold) :
    ParamOK (keySettings sym s).iterations ∧ ParamOK (keySettings sym s).depth_threshold := by
  refine keySettings_cases
    (fun t => ParamOK t.iterations ∧ ParamOK t.depth_threshold) s
    ⟨hi, hd⟩ ⟨hi, hd⟩ ⟨hi, hd⟩ ⟨hi, hd⟩ ⟨hi, hd⟩ ⟨hi, hd⟩ ?_ ?_ ?_ ?_ ⟨hi, hd⟩ sym
  · rw [keySettings_rightbracket]
    split
    · exact ⟨ParamOK_double hi (by assumption), hd⟩
    · exact ⟨hi, hd⟩
  · rw [keySettings_leftbracket]
    split
    · exact ⟨ParamOK_halve hi (by assumption), hd⟩
    · exact ⟨hi, hd⟩
  · rw [keySettings_home]
    split
    · exact ⟨hi, ParamOK_double hd (by assumption)⟩
    · exact ⟨hi, hd⟩
  · rw [keySettings_end]
    split
    · exact ⟨hi, ParamOK_halve hd (by assumption)⟩
    · exact ⟨hi, hd⟩

theorem keyEvents_ParamOK (syms : List Int) (w : World)
    (hi : ParamOK w.settings.iterations) (hd : ParamOK w.settings.depth_threshold) :
    ParamOK (keyEvents syms w).settings.iterations ∧
      ParamOK (keyEvents syms w).settings.depth_threshold := by
  induction syms generalizing w with
  | nil => exact ⟨hi, hd⟩
  | cons sym rest ih =>
    have h := keySettings_ParamOK sym w.settings hi hd
    exact ih (keyHandler sym w) h.1 h.2

theorem keyHandler_rightbracket_iterations (w : World) :
    (keyHandler SDLK_RIGHTBRACKET w).settings.iterations =
      if w.settings.iterations < 1024 then w.settings.iterations * 2
      else w.settings.iterations := by
  show (keySettings SDLK_RIGHTBRACKET w.settings).iterations = _
  rw [keySettings_rightbracket]
  split_ifs <;> rfl

theorem keyHandler_home_depth (w : World) :
    (keyHandler SDLK_HOME w).settings.depth_threshold =
      if w.settings.depth_threshold < 1024 then w.settings.depth_threshold * 2
      else w.settings.depth_threshold := by
  show (keySettings SDLK_HOME w.settings).depth_threshold = _
  rw [keySettings_home]
  split_ifs <;> rfl

theorem doubling_step (n : Nat) (v : Int) (hv : v = if n ≤ 10 then 2 ^ n else 1024) :
    (if v < 1024 then v * 2 else v) = if n + 1 ≤ 10 then 2 ^ (n + 1) else 1024 := by
  subst hv
  by_cases h : n ≤ 10
  · interval_cases n <;> norm_num
  · have h1 : ¬ n + 1 ≤ 10 := by omega
    simp [h, h1]

/-- C2: every state reachable from the startup defaults by key events has
`1 ≤ iterations ≤ 1024` and `1 ≤ depth_threshold ≤ 1024`; from `iterations = 1`, `n`
presses of the Iterations+ key give `2 ^ n` up to `n = 10` and `1024` from then on, and
Iterations- at `iterations = 1` leaves `1`; likewise for the Depth+ and Depth- keys on `depth_threshold`. -/
theorem keyHandler_parameter_bounds :
    (∀ (syms : List Int) (r : resourcesTable_t),
      1 ≤ (keyEvents syms ⟨settings_default, r⟩).settings.iterations ∧
      (keyEvents syms ⟨settings_default, r⟩).settings.iterations ≤ 1024 ∧
      1 ≤ (keyEvents syms ⟨settings_default, r⟩).settings.depth_threshold ∧
      (keyEvents syms ⟨settings_default, r⟩).settings.depth_threshold ≤ 1024) ∧
    (∀ (s : settings_t) (r : resourcesTable_t) (n : Nat),
      ((keyHandler SDLK_RIGHTBRACKET)^[n] ⟨{ s with iterations := 1 }, r⟩).settings.iterations
        = if n ≤ 10 then 2 ^ n else 1024) ∧
    (∀ (s : settings_t) (r : resourcesTable_t),
      (keyHandler SDLK_LEFTBRACKET ⟨{ s with iterations := 1 }, r⟩).settings.iterations = 1) ∧
    (∀ (s : settings_t) (r : resourcesTable_t) (n : Nat),
      ((keyHandler SDLK_HOME)^[n]
          ⟨{ s with depth_threshold := 1 }, r⟩).settings.depth_threshold
        = if n ≤ 10 then 2 ^ n else 1024) ∧
    (∀ (s : settings_t) (r : resourcesTable_t),
      (keyHandler SDLK_END ⟨{ s with depth_threshold := 1 }, r⟩).settings.depth_threshold
        = 1) := by
  refine ⟨?_, ?_, ?_, ?_, ?_⟩
  · intro syms r
    have hi : ParamOK (256 : Int) := by
      unfold ParamOK; decide
    have hd : ParamOK (8 : Int) := by
      unfold ParamOK; decide
    have h := keyEvents_ParamOK syms ⟨settings_default, r⟩ hi hd
    have h1 := ParamOK_bounds h.1
    have h2 := ParamOK_bounds h.2
    exact ⟨h1.1, h1.2, h2.1, h2.2⟩
  · intro s r n
    induction n with
    | zero => rfl
    | succ n ih =>
      rw [Function.iterate_succ_apply', keyHandler_rightbracket_iterations]
      exact doubling_step n _ ih
  · intro s r
    rfl
  · intro s r n
    induction n with
    | zero => rfl
    | succ n ih =>
      rw [Function.iterate_succ_apply', keyHandler_home_depth]
      exact doubling_step n _ ih
  · intro s r
    rfl

/-- C8: the pan and zoom keys change the settings as the key table says and leave every
other field of the settings unchanged; positive scales stay positive under every key;
zoom-in followed by zoom-out restores the settings. -/
theorem keyHandler_pan_zoom (w : World) :
    (keyHandler SDLK_DOWN w).settings =
      { w.settings with y_shift := w.settings.y_shift + w.settings.y_scale / 10 } ∧
    (keyHandler SDLK_UP w).settings =
      { w.settings with y_shift := w.settings.y_shift - w.settings.y_scale / 10 } ∧
    (keyHandler SDLK_RIGHT w).settings =
      { w.settings with x_shift := w.settings.x_shift + w.settings.x_scale / 10 } ∧
    (keyHandler SDLK_LEFT w).settings =
      { w.settings with x_shift := w.settings.x_shift - w.settings.x_scale / 10 } ∧
    (keyHandler SDLK_PERIOD w).settings =
      { w.settings with
          x_scale := w.settings.x_scale / 2, y_scale := w.settings.y_scale / 2 } ∧
    (keyHandler SDLK_COMMA w).settings =
      { w.settings with
          x_scale := w.settings.x_scale * 2, y_scale := w.settings.y_scale * 2 } ∧
    (∀ sym : Int, 0 < w.settings.x_scale → 0 < w.settings.y_scale →
      0 < (keyHandler sym w).settings.x_scale ∧ 0 < (keyHandler sym w).settings.y_scale) ∧
    (keyHandler SDLK_COMMA (keyHandler SDLK_PERIOD w)).settings = w.settings := by
  obtain ⟨s, r⟩ := w
  obtain ⟨xs, ys, xh, yh, it, dt⟩ := s
  refine ⟨?_, ?_, ?_, ?_, ?_, ?_, ?_, ?_⟩
  · show keySettings SDLK_DOWN _ = _
    rw [keySettings_down]
    simp only [settings_t.mk.injEq, and_true, true_and]
    norm_num
    ring
  · show keySettings SDLK_UP _ = _
    rw [keySettings_up]
    simp only [settings_t.mk.injEq, and_true, true_and]
    norm_num
    ring
  · show keySettings SDLK_RIGHT _ = _
    rw [keySettings_right]
    simp only [settings_t.mk.injEq, and_true, true_and]
    norm_num
    ring
  · show keySettings SDLK_LEFT _ = _
    rw [keySettings_left]
    simp only [settings_t.mk.injEq, and_true, true_and]
    norm_num
    ring
  · show keySettings SDLK_PERIOD _ = _
    rw [keySettings_period]
    simp only [settings_t.mk.injEq, and_true, true_and]
    constructor <;> norm_num <;> ring
  · show keySettings SDLK_COMMA _ = _
    rw [keySettings_comma]
    simp only [settings_t.mk.injEq, and_true, true_and]
    constructor <;> norm_num
  · intro sym hx hy
    show 0 < (keySettings sym (settings_t.mk xs ys xh yh it dt)).x_scale ∧
      0 < (keySettings sym (settings_t.mk xs ys xh yh it dt)).y_scale
    refine keySettings_cases (fun t => 0 < t.x_scale ∧ 0 < t.y_scale)
      (settings_t.mk xs ys xh yh it dt)
      ⟨hx, hy⟩ ⟨hx, hy⟩ ⟨hx, hy⟩ ⟨hx, hy⟩ ?_ ?_ ?_ ?_ ?_ ?_ ⟨hx, hy⟩ sym
    · rw [keySettings_period]
      simp only at hx hy ⊢
      constructor <;> positivity
    · rw [keySettings_comma]
      simp only at hx hy ⊢
      constructor <;> positivity
    · rw [keySettings_rightbracket]
      split <;> exact ⟨hx, hy⟩
    · rw [keySettings_leftbracket]
      split <;> exact ⟨hx, hy⟩
    · rw [keySettings_home]
      split <;> exact ⟨hx, hy⟩
    · rw [keySettings_end]
      split <;> exact ⟨hx, hy⟩
  · show keySettings SDLK_COMMA (keySettings SDLK_PERIOD _) = _
    rw [keySettings_period, keySettings_comma]
    simp only [settings_t.mk.injEq, and_true]
    constructor <;> norm_num <;> ring

/-- Witness of C8 at the startup globals and the zoom-in key. -/
theorem keyHandler_pan_zoom_witness :
    0 < (keyHandler SDLK_PERIOD World_default).settings.x_scale ∧
      0 < (keyHandler SDLK_PERIOD World_default).settings.y_scale :=
  (keyHandler_pan_zoom World_default).2.2.2.2.2.2.1 SDLK_PERIOD
    (by norm_num [World_default, settings_default])
    (by norm_num [World_default, settings_default])

/-! ## Properties of RenderPixels -/

theorem positions_nil : positions [] = [] := rfl

theorem positions_cons (wr : Write) (ws : List Write) :
    positions (wr :: ws) = (wr.row, wr.pixel) :: positions ws := rfl

theorem positions_append (ws1 ws2 : List Write) :
    positions (ws1 ++ ws2) = positions ws1 ++ positions ws2 := by
  simp [positions]

/-- The inner loop stores to the columns from `col` on that have the parity of `col`. -/
theorem colLoop_mem (fl : FloatOps) (s : settings_t) (dim_x dim_y row : Nat) :
    ∀ (m col : Nat), dim_x - col = m → ∀ r c : Nat,
      ((r, c) ∈ positions (colLoop fl s dim_x dim_y row col col) ↔
        (r = row ∧ col ≤ c ∧ c < dim_x ∧ c % 2 = col % 2)) := by
  intro m
  induction m using Nat.strong_induction_on with
  | _ m ih =>
    intro col hm r c
    rw [colLoop]
    split
    · rename_i hlt
      have hrec := ih (dim_x - (col + 2)) (by omega) (col + 2) rfl r c
      rw [positions_cons, List.mem_cons, hrec, Prod.mk.injEq]
      constructor
      · rintro (⟨h1, h2⟩ | ⟨h1, h2, h3, h4⟩)
        · subst h1 h2
          exact ⟨rfl, le_refl _, hlt, rfl⟩
        · exact ⟨h1, by omega, h3, by omega⟩
      · rintro ⟨h1, h2, h3, h4⟩
        by_cases hc : c = col
        · exact Or.inl ⟨h1, hc⟩
        · exact Or.inr ⟨h1, by omega, h3, by omega⟩
    · rename_i hge
      rw [positions_nil]
      constructor
      · intro h
        exact absurd h (List.not_mem_nil _)
      · rintro ⟨_, h2, h3, _⟩
        omega

/-- The inner loop stores to no position twice. -/
theorem colLoop_nodup (fl : FloatOps) (s : settings_t) (dim_x dim_y row : Nat) :
    ∀ (m col : Nat), dim_x - col = m →
      (positions (colLoop fl s dim_x dim_y row col col)).Nodup := by
  intro m
  induction m using Nat.strong_induction_on with
  | _ m ih =>
    intro col hm
    rw [colLoop]
    split
    · rw [positions_cons, List.nodup_cons]
      refine ⟨?_, ih (dim_x - (col + 2)) (by omega) (col + 2) rfl⟩
      intro hmem
      have h := (colLoop_mem fl s dim_x dim_y row _ (col + 2) rfl row col).1 hmem
      omega
    · rw [positions_nil]
      exact List.nodup_nil

/-- The row loop started at `row` stores to the rows from `row` on, at the columns from
`start_at` on that have the parity of `start_at`. -/
theorem rowLoop_mem (fl : FloatOps) (s : settings_t) (dim_x dim_y start_at : Nat) :
    ∀ (m row : Nat), dim_y - row = m → ∀ r c : Nat,
      ((r, c) ∈ positions (rowLoop fl s dim_x dim_y start_at row) ↔
        (row ≤ r ∧ r < dim_y ∧ start_at ≤ c ∧ c < dim_x ∧ c % 2 = start_at % 2)) := by
  intro m
  induction m using Nat.strong_induction_on with
  | _ m ih =>
    intro row hm r c
    rw [rowLoop]
    split
    · rename_i hlt
      have hrec := ih (dim_y - (row + 1)) (by omega) (row + 1) rfl r c
      have hcol := colLoop_mem fl s dim_x dim_y row _ start_at rfl r c
      rw [positions_append, List.mem_append, hrec, hcol]
      constructor
      · rintro (⟨h1, h2, h3, h4⟩ | ⟨h1, h2, h3, h4, h5⟩)
        · exact ⟨by omega, by omega, h2, h3, h4⟩
        · exact ⟨by omega, h2, h3, h4, h5⟩
      · rintro ⟨h1, h2, h3, h4, h5⟩
        by_cases hr : r = row
        · exact Or.inl ⟨hr, h3, h4, h5⟩
        · exact Or.inr ⟨by omega, h2, h3, h4, h5⟩
    · rw [positions_nil]
      constructor
      · intro h
        exact absurd h (List.not_mem_nil _)
      · rintro ⟨h1, h2, _⟩
        omega

/-- The row loop stores to no position twice. -/
theorem rowLoop_nodup (fl : FloatOps) (s : settings_t) (dim_x dim_y start_at : Nat) :
    ∀ (m row : Nat), dim_y - row = m →
      (positions (rowLoop fl s dim_x dim_y start_at row)).Nodup := by
  intro m
  induction m using Nat.strong_induction_on with
  | _ m ih =>
    intro row hm
    rw [rowLoop]
    split
    · rw [positions_append, List.nodup_append]
      refine ⟨colLoop_nodup fl s dim_x dim_y row _ start_at rfl,
        ih (dim_y - (row + 1)) (by omega) (row + 1) rfl, ?_⟩
      intro a h1 h2
      obtain ⟨r, c⟩ := a
      have e1 := (colLoop_mem fl s dim_x dim_y row _ start_at rfl r c).1 h1
      have e2 := (rowLoop_mem fl s dim_x dim_y start_at _ (row + 1) rfl r c).1 h2
      omega
    · rw [positions_nil]
      exact List.nodup_nil

theorem writesAt_nil (row col : Nat) : writesAt [] row col = 0 := rfl

theorem writesAt_cons (wr : Write) (ws : List Write) (row col : Nat) :
    writesAt (wr :: ws) row col =
      writesAt ws row col + if wr.row = row ∧ wr.pixel = col then 1 else 0 := by
  unfold writesAt
  rw [List.countP_cons]
  simp

theorem writesAt_append (ws1 ws2 : List Write) (row col : Nat) :
    writesAt (ws1 ++ ws2) row col = writesAt ws1 row col + writesAt ws2 row col := by
  unfold writesAt
  exact List.countP_append _ ws1 ws2

theorem writesAt_of_not_mem (ws : List Write) (row col : Nat)
    (h : (row, col) ∉ positions ws) : writesAt ws row col = 0 := by
  induction ws with
  | nil => rfl
  | cons wr rest ih =>
    rw [positions_cons, List.mem_cons, not_or, Prod.mk.injEq] at h
    rw [writesAt_cons, ih h.2]
    have h1 : ¬ (wr.row = row ∧ wr.pixel = col) := fun e => h.1 ⟨e.1.symm, e.2.symm⟩
    rw [if_neg h1]

theorem writesAt_of_mem (ws : List Write) (row col : Nat) (hn : (positions ws).Nodup)
    (h : (row, col) ∈ positions ws) : writesAt ws row col = 1 := by
  induction ws with
  | nil => exact absurd h (List.not_mem_nil _)
  | cons wr rest ih =>
    rw [positions_cons, List.nodup_cons] at hn
    rw [positions_cons, List.mem_cons, Prod.mk.injEq] at h
    rw [writesAt_cons]
    by_cases hhead : wr.row = row ∧ wr.pixel = col
    · rw [if_pos hhead]
      have hnot : (row, col) ∉ positions rest := by
        rw [← hhead.1, ← hhead.2]
        exact hn.1
      rw [writesAt_of_not_mem rest row col hnot]
    · rw [if_neg hhead]
      rcases h with h | h
      · exact absurd ⟨h.1.symm, h.2.symm⟩ hhead
      · rw [ih hn.2 h]

/-- Number of stores to a position, for a list of stores without repetition. -/
theorem writesAt_of_nodup {ws : List Write} (hn : (positions ws).Nodup) (row col : Nat)
    (P : Prop) [Decidable P] (hP : (row, col) ∈ positions ws ↔ P) :
    writesAt ws row col = if P then 1 else 0 := by
  by_cases h : P
  · rw [if_pos h]
    exact writesAt_of_mem ws row col hn (hP.2 h)
  · rw [if_neg h]
    exact writesAt_of_not_mem ws row col (fun hm => h (hP.1 hm))

theorem RenderPixels_pass1 (fl : FloatOps) (w : World) (h : w.resourcesTable.cg_Field = 1) :
    RenderPixels fl w =
      ({ w with resourcesTable :=
          { w.resourcesTable with
              cg_Field := 2
              cg_TexturePixels :=
                (rowLoop fl w.settings w.resourcesTable.r_CustomWidth
                  w.resourcesTable.r_CustomHeight 0 0).foldl store
                  w.resourcesTable.cg_TexturePixels } },
        rowLoop fl w.settings w.resourcesTable.r_CustomWidth
          w.resourcesTable.r_CustomHeight 0 0) := by
  unfold RenderPixels
  rw [if_pos h]

theorem RenderPixels_pass2 (fl : FloatOps) (w : World) (h : w.resourcesTable.cg_Field = 2) :
    RenderPixels fl w =
      ({ w with resourcesTable :=
          { w.resourcesTable with
              cg_Field := 0
              cg_TexturePixels :=
                (rowLoop fl w.settings w.resourcesTable.r_CustomWidth
                  w.resourcesTable.r_CustomHeight 1 0).foldl store
                  w.resourcesTable.cg_TexturePixels } },
        rowLoop fl w.settings w.resourcesTable.r_CustomWidth
          w.resourcesTable.r_CustomHeight 1 0) := by
  unfold RenderPixels
  have h1 : ¬ w.resourcesTable.cg_Field = 1 := by omega
  rw [if_neg h1, if_pos h]

theorem RenderPixels_other (fl : FloatOps) (w : World) (h1 : w.resourcesTable.cg_Field ≠ 1)
    (h2 : w.resourcesTable.cg_Field ≠ 2) : RenderPixels fl w = (w, []) := by
  unfold RenderPixels
  rw [if_neg h1, if_neg h2]

/-- Stores of a pass that starts its rows at `start_at` (0 or 1): one to every pixel of
the buffer whose column has the parity of `start_at`, none elsewhere. -/
theorem rowLoop_writesAt (fl : FloatOps) (s : settings_t) (dim_x dim_y start_at : Nat)
    (hs : start_at ≤ 1) (row col : Nat) :
    writesAt (rowLoop fl s dim_x dim_y start_at 0) row col =
      if row < dim_y ∧ col < dim_x ∧ col % 2 = start_at then 1 else 0 := by
  apply writesAt_of_nodup (rowLoop_nodup fl s dim_x dim_y start_at _ 0 rfl)
  rw [rowLoop_mem fl s dim_x dim_y start_at _ 0 rfl row col]
  constructor
  · rintro ⟨_, h2, h3, h4, h5⟩
    exact ⟨h2, h4, by omega⟩
  · rintro ⟨h2, h4, h5⟩
    exact ⟨Nat.zero_le _, h2, by omega, h4, by omega⟩

/-- C1: from phase Pass1Pending (`cg_Field = 1`), the first of two consecutive
`RenderPixels` calls stores exactly once to each pixel `(row, col)` with `row < H`,
`col < W`, `col` even and to no other position, the second exactly once to each such
pixel with `col` odd and to no other position; over both calls each pixel of the
`W x H` buffer is stored to exactly once and no position outside it is stored to; the
phase goes 1, 2, 0. -/
theorem RenderPixels_two_passes (fl : FloatOps) (w : World)
    (h : w.resourcesTable.cg_Field = 1) :
    (∀ row col : Nat, writesAt (RenderWrites fl w) row col =
      if row < w.resourcesTable.r_CustomHeight ∧ col < w.resourcesTable.r_CustomWidth ∧
        col % 2 = 0 then 1 else 0) ∧
    (∀ row col : Nat, writesAt (RenderWrites fl (RenderState fl w)) row col =
      if row < w.resourcesTable.r_CustomHeight ∧ col < w.resourcesTable.r_CustomWidth ∧
        col % 2 = 1 then 1 else 0) ∧
    (∀ row col : Nat,
      writesAt (RenderWrites fl w ++ RenderWrites fl (RenderState fl w)) row col =
        if row < w.resourcesTable.r_CustomHeight ∧ col < w.resourcesTable.r_CustomWidth
        then 1 else 0) ∧
    (RenderState fl w).resourcesTable.cg_Field = 2 ∧
    (RenderState fl (RenderState fl w)).resourcesTable.cg_Field = 0 := by
  have e1 := RenderPixels_pass1 fl w h
  have hf : (RenderState fl w).resourcesTable.cg_Field = 2 := by
    unfold RenderState; rw [e1]
  have e2 := RenderPixels_pass2 fl (RenderState fl w) hf
  have hw1 : ∀ row col : Nat, writesAt (RenderWrites fl w) row col =
      if row < w.resourcesTable.r_CustomHeight ∧ col < w.resourcesTable.r_CustomWidth ∧
        col % 2 = 0 then 1 else 0 := by
    intro row col
    unfold RenderWrites; rw [e1]
    exact rowLoop_writesAt fl _ _ _ 0 (by omega) row col
  have hw2 : ∀ row col : Nat, writesAt (RenderWrites fl (RenderState fl w)) row col =
      if row < w.resourcesTable.r_CustomHeight ∧ col < w.resourcesTable.r_CustomWidth ∧
        col % 2 = 1 then 1 else 0 := by
    intro row col
    have hx : (RenderState fl w).resourcesTable.r_CustomWidth =
        w.resourcesTable.r_CustomWidth := by unfold RenderState; rw [e1]
    have hy : (RenderState fl w).resourcesTable.r_CustomHeight =
        w.resourcesTable.r_CustomHeight := by unfold RenderState; rw [e1]
    rw [← hx, ← hy]
    unfold RenderWrites; rw [e2]
    exact rowLoop_writesAt fl _ _ _ 1 (by omega) row col
  refine ⟨hw1, hw2, ?_, hf, ?_⟩
  · intro row col
    rw [writesAt_append, hw1, hw2]
    by_cases hr : row < w.resourcesTable.r_CustomHeight
    · by_cases hc : col < w.resourcesTable.r_CustomWidth
      · rcases Nat.mod_two_eq_zero_or_one col with hp | hp <;> simp [hr, hc, hp]
      · simp [hc]
    · simp [hr]
  · show (RenderPixels fl (RenderState fl w)).1.resourcesTable.cg_Field = 0
    rw [e2]

/-- Witness of C1 at the startup globals (a 640 x 480 buffer), shown at the pixels
`(0, 0)` and `(479, 639)` and at the position `(480, 0)` outside the buffer. -/
theorem RenderPixels_two_passes_witness :
    World_default.resourcesTable.cg_Field = 1 ∧
    writesAt (RenderWrites FloatOps_table World_default) 0 0 = 1 ∧
    writesAt (RenderWrites FloatOps_table (RenderState FloatOps_table World_default))
      479 639 = 1 ∧
    writesAt (RenderWrites FloatOps_table World_default ++
      RenderWrites FloatOps_table (RenderState FloatOps_table World_default)) 480 0 = 0 :=
  ⟨rfl,
    ((RenderPixels_two_passes FloatOps_table World_default rfl).1 0 0).trans (by decide),
    ((RenderPixels_two_passes FloatOps_table World_default rfl).2.1 479 639).trans
      (by decide),
    ((RenderPixels_two_passes FloatOps_table World_default rfl).2.2.1 480 0).trans
      (by decide)⟩

theorem keyFlags_dims (sym : Int) (r : resourcesTable_t) :
    (keyFlags sym r).r_CustomWidth = r.r_CustomWidth ∧
      (keyFlags sym r).r_CustomHeight = r.r_CustomHeight := by
  unfold keyFlags
  split_ifs <;> exact ⟨rfl, rfl⟩

/-- C3: after `keyHandler`, for every key symbol and every state (so every phase) the
phase is Pass1Pending (`cg_Field = 1`); the next `RenderPixels` call stores exactly
once to each pixel of the buffer in an even column, to no other position, and moves to
phase 2. -/
theorem keyHandler_resets_phase (fl : FloatOps) (sym : Int) (w : World) :
    (keyHandler sym w).resourcesTable.cg_Field = 1 ∧
    (∀ row col : Nat, writesAt (RenderWrites fl (keyHandler sym w)) row col =
      if row < w.resourcesTable.r_CustomHeight ∧ col < w.resourcesTable.r_CustomWidth ∧
        col % 2 = 0 then 1 else 0) ∧
    (RenderState fl (keyHandler sym w)).resourcesTable.cg_Field = 2 := by
  have hf : (keyHandler sym w).resourcesTable.cg_Field = 1 := rfl
  have e1 := RenderPixels_pass1 fl (keyHandler sym w) hf
  have hx : (keyHandler sym w).resourcesTable.r_CustomWidth =
      w.resourcesTable.r_CustomWidth := (keyFlags_dims sym w.resourcesTable).1
  have hy : (keyHandler sym w).resourcesTable.r_CustomHeight =
      w.resourcesTable.r_CustomHeight := (keyFlags_dims sym w.resourcesTable).2
  refine ⟨hf, ?_, ?_⟩
  · intro row col
    rw [← hx, ← hy]
    unfold RenderWrites; rw [e1]
    exact rowLoop_writesAt fl _ _ _ 0 (by omega) row col
  · unfold RenderState; rw [e1]

theorem RenderState_idle_iterate (fl : FloatOps) (w : World)
    (h1 : w.resourcesTable.cg_Field ≠ 1) (h2 : w.resourcesTable.cg_Field ≠ 2) (n : Nat) :
    (RenderState fl)^[n] w = w := by
  induction n with
  | zero => rfl
  | succ n ih =>
    rw [Function.iterate_succ_apply', ih]
    unfold RenderState
    rw [RenderPixels_other fl w h1 h2]

/-- C4: in phase Idle (`cg_Field` neither 1 nor 2) `RenderPixels` performs no store and
leaves the globals, buffer and settings included, as they are; hence, from phase
Pass1Pending, every call after the first two performs no store and leaves the globals
as the second call left them. -/
theorem RenderPixels_idle (fl : FloatOps) :
    (∀ w : World, w.resourcesTable.cg_Field ≠ 1 → w.resourcesTable.cg_Field ≠ 2 →
      RenderWrites fl w = [] ∧ RenderState fl w = w) ∧
    (∀ w : World, w.resourcesTable.cg_Field = 1 → ∀ n : Nat,
      RenderWrites fl ((RenderState fl)^[n + 2] w) = [] ∧
        (RenderState fl)^[n + 3] w = (RenderState fl)^[2] w) := by
  constructor
  · intro w h1 h2
    unfold RenderWrites RenderState
    rw [RenderPixels_other fl w h1 h2]
    exact ⟨rfl, rfl⟩
  · intro w h n
    have e1 := RenderPixels_pass1 fl w h
    have hf : (RenderState fl w).resourcesTable.cg_Field = 2 := by
      unfold RenderState; rw [e1]
    have e2 := RenderPixels_pass2 fl (RenderState fl w) hf
    have hg : ((RenderState fl)^[2] w).resourcesTable.cg_Field = 0 := by
      show (RenderPixels fl (RenderState fl w)).1.resourcesTable.cg_Field = 0
      rw [e2]
    have hg1 : ((RenderState fl)^[2] w).resourcesTable.cg_Field ≠ 1 := by omega
    have hg2 : ((RenderState fl)^[2] w).resourcesTable.cg_Field ≠ 2 := by omega
    have hn : ∀ k : Nat, (RenderState fl)^[k + 2] w = (RenderState fl)^[2] w := by
      intro k
      rw [Function.iterate_add_apply]
      exact RenderState_idle_iterate fl _ hg1 hg2 k
    constructor
    · rw [hn n]
      unfold RenderWrites
      rw [RenderPixels_other fl _ hg1 hg2]
    · exact hn (n + 1)

/-- Witness of C4: an Idle state (the startup globals with `cg_Field = 0`), and the
third call from the startup globals. -/
theorem RenderPixels_idle_witness :
    (RenderWrites FloatOps_table
        { World_default with
            resourcesTable := { resourcesTable_default with cg_Field := 0 } } = [] ∧
      RenderState FloatOps_table
        { World_default with
            resourcesTable := { resourcesTable_default with cg_Field := 0 } } =
        { World_default with
            resourcesTable := { resourcesTable_default with cg_Field := 0 } }) ∧
    (RenderWrites FloatOps_table ((RenderState FloatOps_table)^[0 + 2] World_default) = [] ∧
      (RenderState FloatOps_table)^[0 + 3] World_default =
        (RenderState FloatOps_table)^[2] World_default) :=
  ⟨(RenderPixels_idle FloatOps_table).1
      { World_default with resourcesTable := { resourcesTable_default with cg_Field := 0 } }
      (by decide) (by decide),
    (RenderPixels_idle FloatOps_table).2 World_default rfl 0⟩

/-! ## Properties of the colour step -/

/-- C5, as amended: for `W > 0` and `H > 0`, `MappingFunction` sends `(0, 0)` to
`(x0, y0)` and `(W, H)` to `(x1, y1)`; when `W` and `H` are even it sends `(W/2, H/2)`
to `(x_shift, y_shift)`. -/
theorem MappingFunction_corners_midpoint (s : settings_t) (W H : Nat)
    (hW : 0 < W) (hH : 0 < H) :
    MappingFunction s 0 0 W H =
      ⟨-2 * s.x_scale + s.x_shift, -2 * s.y_scale + s.y_shift⟩ ∧
    MappingFunction s W H W H =
      ⟨2 * s.x_scale + s.x_shift, 2 * s.y_scale + s.y_shift⟩ ∧
    (W % 2 = 0 → H % 2 = 0 →
      MappingFunction s (W / 2) (H / 2) W H = ⟨s.x_shift, s.y_shift⟩) := by
  have hW0 : (W : ℚ) ≠ 0 := by exact_mod_cast (Nat.pos_iff_ne_zero.1 hW)
  have hH0 : (H : ℚ) ≠ 0 := by exact_mod_cast (Nat.pos_iff_ne_zero.1 hH)
  refine ⟨?_, ?_, ?_⟩
  · simp only [MappingFunction, Cplx.mk.injEq]
    constructor <;> norm_num
  · simp only [MappingFunction, Cplx.mk.injEq]
    constructor <;> field_simp <;> norm_num <;> ring
  · intro h1 h2
    obtain ⟨a, ha⟩ : ∃ a, W = 2 * a := ⟨W / 2, by omega⟩
    obtain ⟨b, hb⟩ : ∃ b, H = 2 * b := ⟨H / 2, by omega⟩
    subst ha hb
    have ea : 2 * a / 2 = a := by omega
    have eb : 2 * b / 2 = b := by omega
    rw [ea, eb]
    have ha0 : (a : ℚ) ≠ 0 := by
      intro h; apply hW0; push_cast; rw [h]; ring
    have hb0 : (b : ℚ) ≠ 0 := by
      intro h; apply hH0; push_cast; rw [h]; ring
    simp only [MappingFunction, Cplx.mk.injEq]
    push_cast
    constructor <;> field_simp <;> norm_num <;> ring

/-- Witness of C5 (amended) at the startup settings and the 640 x 480 buffer. -/
theorem MappingFunction_corners_midpoint_witness :
    0 < 640 ∧ 0 < 480 ∧ 640 % 2 = 0 ∧ 480 % 2 = 0 ∧
    MappingFunction settings_default 0 0 640 480 =
      ⟨-2 * settings_default.x_scale + settings_default.x_shift,
        -2 * settings_default.y_scale + settings_default.y_shift⟩ ∧
    MappingFunction settings_default (640 / 2) (480 / 2) 640 480 =
      ⟨settings_default.x_shift, settings_default.y_shift⟩ :=
  ⟨by decide, by decide, by decide, by decide,
    (MappingFunction_corners_midpoint settings_default 640 480 (by decide) (by decide)).1,
    (MappingFunction_corners_midpoint settings_default 640 480 (by decide) (by decide)).2.2
      (by decide) (by decide)⟩

/-- Counterexample to C5 as stated: with the startup settings and `W = H = 3`, the
point `(W/2, H/2) = (1, 1)` is not sent to `(x_shift, y_shift)`. -/
theorem MappingFunction_midpoint_odd_counterexample :
    (0 < 3 ∧ MappingFunction settings_default (3 / 2) (3 / 2) 3 3 ≠
      ⟨settings_default.x_shift, settings_default.y_shift⟩) := by
  refine ⟨by decide, ?_⟩
  intro h
  have h1 := congrArg Cplx.re h
  simp only [MappingFunction, settings_default] at h1
  norm_num at h1

/-! ## Properties of DemMandelbrot -/

/-- The loop runs some number `j` of trips: before each of them the loop condition
held and the threshold was not exceeded, and after the last one of the two fails. -/
theorem DemLoop_spec (s : settings_t) (point : Cplx) :
    ∀ (m : Nat) (st : DemState), (s.iterations - (st.i : Int)).toNat = m →
      ∃ j : Nat, DemLoop s point st = (DemTrip point)^[j] st ∧
        (∀ n, n < j → (((DemTrip point)^[n] st).i : Int) < s.iterations ∧
          ¬ ((DemTrip point)^[n] st).nz > (s.depth_threshold : ℚ)) ∧
        (¬ ((((DemTrip point)^[j] st).i : Int) < s.iterations) ∨
          ((DemTrip point)^[j] st).nz > (s.depth_threshold : ℚ)) := by
  intro m
  induction m using Nat.strong_induction_on with
  | _ m ih =>
    intro st hm
    rw [DemLoop]
    by_cases hi : (st.i : Int) < s.iterations
    · rw [if_pos hi]
      by_cases hz : st.nz > (s.depth_threshold : ℚ)
      · rw [if_pos hz]
        exact ⟨0, rfl, fun n hn => absurd hn (Nat.not_lt_zero n), Or.inr hz⟩
      · rw [if_neg hz]
        have hdec : (s.iterations - ((DemTrip point st).i : Int)).toNat < m := by
          have e : (DemTrip point st).i = st.i + 1 + 1 := rfl
          rw [e]
          push_cast
          omega
        obtain ⟨j, hj, hbefore, hstop⟩ := ih _ hdec (DemTrip point st) rfl
        refine ⟨j + 1, ?_, ?_, ?_⟩
        · rw [Function.iterate_succ_apply]
          exact hj
        · intro n hn
          cases n with
          | zero => exact ⟨hi, hz⟩
          | succ n =>
            rw [Function.iterate_succ_apply]
            exact hbefore n (by omega)
        · rw [Function.iterate_succ_apply]
          exact hstop
    · rw [if_neg hi]
      exact ⟨0, rfl, fun n hn => absurd hn (Nat.not_lt_zero n), Or.inl hi⟩

/-- The locals after `n` trips from loop entry: `z` is the `n`-th point of the orbit,
`nz` its squared magnitude, `i = 2 * n`, and `n` bodies have been executed. -/
theorem DemTrip_iterate_init (point : Cplx) (n : Nat) :
    ((DemTrip point)^[n] DemInit).z = orbit point n ∧
      ((DemTrip point)^[n] DemInit).nz = Cplx.norm (orbit point n) ∧
      ((DemTrip point)^[n] DemInit).i = 2 * n ∧
      ((DemTrip point)^[n] DemInit).updates = n := by
  induction n with
  | zero =>
    refine ⟨rfl, ?_, rfl, rfl⟩
    show (0 : ℚ) = (0 : ℚ) * 0 + 0 * 0
    norm_num
  | succ n ih =>
    obtain ⟨h1, h2, h3, h4⟩ := ih
    rw [Function.iterate_succ_apply']
    refine ⟨?_, ?_, ?_, ?_⟩
    · show ((DemTrip point)^[n] DemInit).z * ((DemTrip point)^[n] DemInit).z + point = _
      rw [h1]
      rfl
    · show Cplx.norm
        (((DemTrip point)^[n] DemInit).z * ((DemTrip point)^[n] DemInit).z + point) = _
      rw [h1]
      rfl
    · show ((DemTrip point)^[n] DemInit).i + 1 + 1 = _
      rw [h3]
      omega
    · show ((DemTrip point)^[n] DemInit).updates + 1 = _
      rw [h4]

/-- The number `j` of bodies the loop executes from loop entry, characterised on the
orbit: `2 * m < iterations` and no excess at each `m < j`, and one of them fails at `j`. -/
theorem DemLoop_updates (s : settings_t) (point : Cplx) :
    DemLoop s point DemInit = (DemTrip point)^[(DemLoop s point DemInit).updates] DemInit ∧
      (∀ n, n < (DemLoop s point DemInit).updates →
        (2 * n : Int) < s.iterations ∧
          ¬ Cplx.norm (orbit point n) > (s.depth_threshold : ℚ)) ∧
      (¬ ((2 * (DemLoop s point DemInit).updates : Int) < s.iterations) ∨
        Cplx.norm (orbit point (DemLoop s point DemInit).updates) >
          (s.depth_threshold : ℚ)) := by
  obtain ⟨j, hj, hbefore, hstop⟩ := DemLoop_spec s point _ DemInit rfl
  have hu : (DemLoop s point DemInit).updates = j := by
    rw [hj]
    exact (DemTrip_iterate_init point j).2.2.2
  rw [hu]
  refine ⟨hj, ?_, ?_⟩
  · intro n hn
    have h := hbefore n hn
    obtain ⟨_, h2, h3, _⟩ := DemTrip_iterate_init point n
    rw [h2, h3] at h
    push_cast at h
    exact h
  · obtain ⟨_, h2, h3, _⟩ := DemTrip_iterate_init point j
    rw [h2, h3] at hstop
    push_cast at hstop
    exact hstop

theorem Cplx.add_def (a b : Cplx) : a + b = ⟨a.re + b.re, a.im + b.im⟩ := rfl

theorem Cplx.mul_def (a b : Cplx) :
    a * b = ⟨a.re * b.re - a.im * b.im, a.re * b.im + a.im * b.re⟩ := rfl

theorem orbit_origin (n : Nat) : orbit ⟨0, 0⟩ n = ⟨0, 0⟩ := by
  induction n with
  | zero => rfl
  | succ n ih =>
    show orbit ⟨0, 0⟩ n * orbit ⟨0, 0⟩ n + ⟨0, 0⟩ = _
    rw [ih, Cplx.mul_def, Cplx.add_def]
    norm_num

/-- C9 at the first iteration: for every point, the first executed body leaves
`z = point` and `dz = 1 + i` (not `1`), because every body adds the constant `one`,
which is `(1, 1)`; with the startup settings this first body is executed. -/
theorem DemBody_adds_one_plus_i (point : Cplx) :
    (DemBody point DemInit).z = point ∧
    (DemBody point DemInit).dz = ⟨1, 1⟩ ∧
    (DemBody point DemInit).dz ≠ ⟨1, 0⟩ ∧
    (∀ st : DemState,
      (DemBody point st).dz = Cplx.smul 2 (st.z * st.dz) + ⟨1, 1⟩ ∧
        (DemBody point st).z = st.z * st.z + point) ∧
    DemLoop settings_default point DemInit =
      DemLoop settings_default point (DemTrip point DemInit) := by
  refine ⟨?_, ?_, ?_, fun st => ⟨rfl, rfl⟩, ?_⟩
  · show (⟨0, 0⟩ : Cplx) * ⟨0, 0⟩ + point = point
    rw [Cplx.mul_def, Cplx.add_def]
    norm_num
  · show Cplx.smul 2 ((⟨0, 0⟩ : Cplx) * ⟨1, 0⟩) + one = ⟨1, 1⟩
    rw [Cplx.mul_def, Cplx.add_def]
    simp [Cplx.smul, one]
  · show Cplx.smul 2 ((⟨0, 0⟩ : Cplx) * ⟨1, 0⟩) + one ≠ ⟨1, 0⟩
    rw [Cplx.mul_def, Cplx.add_def]
    simp [Cplx.smul, one]
  · conv_lhs => rw [DemLoop]
    have h1 : ((DemInit.i : Int) < settings_default.iterations) := by
      show ((0 : Nat) : Int) < 256
      norm_num
    have h2 : ¬ DemInit.nz > (settings_default.depth_threshold : ℚ) := by
      show ¬ (0 : ℚ) > ((8 : Int) : ℚ)
      norm_num
    rw [if_pos h1, if_neg h2]

/-- For a point whose orbit never exceeds the threshold, the loop executes
`(iterations + 1) / 2` bodies, that is `iterations / 2` rounded up. -/
theorem DemLoop_updates_of_neverEscapes (s : settings_t) (point : Cplx)
    (hne : NeverEscapes s point) (hit : 0 ≤ s.iterations) :
    ((DemLoop s point DemInit).updates : Int) = (s.iterations + 1) / 2 := by
  obtain ⟨_, hbefore, hstop⟩ := DemLoop_updates s point
  rcases hstop with hstop | hstop
  · by_cases h0 : (DemLoop s point DemInit).updates = 0
    · rw [h0] at hstop ⊢
      push_cast at hstop ⊢
      omega
    · have h := (hbefore ((DemLoop s point DemInit).updates - 1) (by omega)).1
      omega
  · exact absurd hstop (hne _)

/-- C10 at the startup settings and the point 0: the orbit never exceeds the threshold,
and the loop executes 128 bodies (`iterations` is 256): each trip advances `i` twice. -/
theorem DemMandelbrot_origin_default_updates :
    NeverEscapes settings_default ⟨0, 0⟩ ∧
    settings_default.iterations = 256 ∧
    (DemLoop settings_default ⟨0, 0⟩ DemInit).updates = 128 := by
  have hne : NeverEscapes settings_default ⟨0, 0⟩ := by
    intro n
    rw [orbit_origin]
    simp [Cplx.norm, settings_default]
  refine ⟨hne, rfl, ?_⟩
  have h := DemLoop_updates_of_neverEscapes settings_default ⟨0, 0⟩ hne (by decide)
  have hit : settings_default.iterations = 256 := rfl
  rw [hit] at h
  omega

end Mandelbrot
